import Mathlib

/-!
Verification of `src/logo/generate_app_icons.py` (Kuil app icon generator).

The script is embedded shallowly:
* Python strings are `List Char` (claims use `String.data` on literals);
* Python floats are `ℚ` (every computation the claims touch is exact
  dyadic/decimal arithmetic, which `float` performs exactly as well);
* code that can raise (`IndexError` on operand lists, `TypeError` when
  `parse_svg_path` returns `None`) is embedded in `Option`, with `none`
  standing for an unhandled exception;
* file I/O is embedded by passing the file's contents as an argument;
* `PIL` drawing calls are embedded as a record of the draw operations
  performed (`IconImage`).
-/

namespace Kuil

/-- The command-letter set of the tokenizer regex `([MLCZ])([^MLCZ]*)`
compiled with `re.IGNORECASE`: the flag makes both the group and the
negated class case-insensitive, so exactly these eight characters are
command letters and argument runs stop at any of them. -/
def isCmd (c : Char) : Bool :=
  c = 'M' || c = 'L' || c = 'C' || c = 'Z' ||
  c = 'm' || c = 'l' || c = 'c' || c = 'z'

/-- Tokenizer scan with the group currently being built:
`none` before the first command letter, `some (cmd, argsSoFar)` inside a
group's argument run. -/
def tokenizeAux : List Char → Option (Char × List Char) → List (Char × List Char)
  | [], none => []
  | [], some g => [g]
  | d :: rest, none =>
    if isCmd d then tokenizeAux rest (some (d, []))
    else tokenizeAux rest none
  | d :: rest, some (c, args) =>
    if isCmd d then (c, args) :: tokenizeAux rest (some (d, []))
    else tokenizeAux rest (some (c, args ++ [d]))

/-- Model of `re.findall(r'([MLCZ])([^MLCZ]*)', path_data, re.IGNORECASE)` (line 43):
leftmost non-overlapping scan producing (command letter, argument run)
groups; an argument run is the contiguous text up to the next command
letter, and characters before the first command letter are skipped. -/
def tokenize (l : List Char) : List (Char × List Char) :=
  tokenizeAux l none

/-- Value of a finished number match of `-?\d+\.?\d*`, converted as
Python's `float` does (exactly, in `ℚ`): optional sign, integer part,
fraction digits `fa` over `10 ^ fl`. -/
def numVal (neg : Bool) (ip fa fl : ℕ) : ℚ :=
  let v : ℚ := (ip : ℚ) + (fa : ℚ) / (10 : ℚ) ^ fl
  if neg then -v else v

/-- State of the number scan of `re.findall(r'-?\d+\.?\d*', args)`:
between matches; just after a `-` that has not yet been followed by a
digit; inside `\d+` (sign seen, integer part so far); or past the
optional dot in `\.?\d*` (fraction digits and their count so far). -/
inductive NumScanState where
  | scan : NumScanState
  | minus : NumScanState
  | int (neg : Bool) (ip : ℕ) : NumScanState
  | frac (neg : Bool) (ip fa fl : ℕ) : NumScanState
deriving DecidableEq

/-- The scan of `re.findall(r'-?\d+\.?\d*', args)` (line 47) as a
character automaton: a digit starts (or extends) a match; a `-` starts a
match only when a digit follows immediately (`minus` is discarded by
anything but a digit, a later `-` becoming the new pending sign, which is
exactly the regex failing at the `-` and retrying one position later); a
single dot moves the match from integer to fraction; any other character
ends a pending match, emitting its value. -/
def scanNumsAux : List Char → NumScanState → List ℚ
  | [], .scan => []
  | [], .minus => []
  | [], .int neg ip => [numVal neg ip 0 0]
  | [], .frac neg ip fa fl => [numVal neg ip fa fl]
  | c :: rest, .scan =>
    if c.isDigit then scanNumsAux rest (.int false (c.toNat - 48))
    else if c = '-' then scanNumsAux rest .minus
    else scanNumsAux rest .scan
  | c :: rest, .minus =>
    if c.isDigit then scanNumsAux rest (.int true (c.toNat - 48))
    else if c = '-' then scanNumsAux rest .minus
    else scanNumsAux rest .scan
  | c :: rest, .int neg ip =>
    if c.isDigit then scanNumsAux rest (.int neg (10 * ip + (c.toNat - 48)))
    else if c = '.' then scanNumsAux rest (.frac neg ip 0 0)
    else if c = '-' then numVal neg ip 0 0 :: scanNumsAux rest .minus
    else numVal neg ip 0 0 :: scanNumsAux rest .scan
  | c :: rest, .frac neg ip fa fl =>
    if c.isDigit then
      scanNumsAux rest (.frac neg ip (10 * fa + (c.toNat - 48)) (fl + 1))
    else if c = '-' then numVal neg ip fa fl :: scanNumsAux rest .minus
    else numVal neg ip fa fl :: scanNumsAux rest .scan

/-- Model of `[float(n) for n in re.findall(r'-?\d+\.?\d*', args)]` (line 47). -/
def scanNums (args : List Char) : List ℚ :=
  scanNumsAux args .scan

/-- State of the parser loop: `(current_x, current_y, points)`; the points
list already carries the scale/offset transform, the cursor does not,
exactly as in the source (lines 39-40). -/
abbrev PState := ℚ × ℚ × List (ℚ × ℚ)

/-- The `M` branch (lines 49-51): `numbers[0]`/`numbers[1]` raise `IndexError`
(here: `none`) when fewer than two operands were extracted. -/
def doM (s ox oy : ℚ) (nums : List ℚ) (pts : List (ℚ × ℚ)) : Option PState :=
  match nums with
  | x :: y :: _ => some (x, y, pts ++ [(x * s + ox, y * s + oy)])
  | _ => none

/-- The `L` branch (lines 53-56): operand pairs consumed in order; an odd
operand count makes the final `numbers[i+1]` raise `IndexError`. -/
def doL (s ox oy : ℚ) : List ℚ → ℚ → ℚ → List (ℚ × ℚ) → Option PState
  | [], cx, cy, pts => some (cx, cy, pts)
  | [_], _, _, _ => none
  | x :: y :: rest, _, _, pts =>
    doL s ox oy rest x y (pts ++ [(x * s + ox, y * s + oy)])

/-- The cubic blending value computed at lines 69-71:
`(1-t)^3*p0 + 3*(1-t)^2*t*p1 + 3*(1-t)*t^2*p2 + t^3*p3`. -/
def bez (t p0 p1 p2 p3 : ℚ) : ℚ :=
  (1 - t) ^ 3 * p0 + 3 * (1 - t) ^ 2 * t * p1 +
    3 * (1 - t) * t ^ 2 * p2 + t ^ 3 * p3

/-- The four samples appended for one complete `C` sextet
(`for t in [0.25, 0.5, 0.75, 1.0]`, lines 67-72). -/
def bezSamples (s ox oy cx cy x1 y1 x2 y2 x3 y3 : ℚ) : List (ℚ × ℚ) :=
  [(1 : ℚ)/4, 1/2, 3/4, 1].map fun t =>
    (bez t cx x1 x2 x3 * s + ox, bez t cy y1 y2 y3 * s + oy)

/-- The `C` branch (lines 58-74): the guard `i + 5 < len(numbers)` skips any
trailing operands that do not form a complete sextet, so this branch never
raises; each complete sextet appends four curve samples and moves the
cursor to the sextet's endpoint. -/
def doC (s ox oy : ℚ) : List ℚ → ℚ → ℚ → List (ℚ × ℚ) → PState
  | x1 :: y1 :: x2 :: y2 :: x3 :: y3 :: rest, cx, cy, pts =>
    doC s ox oy rest x3 y3 (pts ++ bezSamples s ox oy cx cy x1 y1 x2 y2 x3 y3)
  | _, cx, cy, pts => (cx, cy, pts)

/-- The `H` branch (lines 76-79): each operand overwrites `current_x` and the
point is appended. -/
def doH (s ox oy : ℚ) : List ℚ → ℚ → ℚ → List (ℚ × ℚ) → PState
  | [], cx, cy, pts => (cx, cy, pts)
  | x :: rest, _, cy, pts =>
    doH s ox oy rest x cy (pts ++ [(x * s + ox, cy * s + oy)])

/-- The `V` branch (lines 81-84): each operand overwrites `current_y` and the
point is appended. -/
def doV (s ox oy : ℚ) : List ℚ → ℚ → ℚ → List (ℚ × ℚ) → PState
  | [], cx, cy, pts => (cx, cy, pts)
  | y :: rest, cx, _, pts =>
    doV s ox oy rest cx y (pts ++ [(cx * s + ox, y * s + oy)])

/-- One iteration of the command loop (lines 45-88): uppercases the
command letter, extracts the operands, dispatches on the branch; a letter
matching no branch leaves the state unchanged. `Z` appends a copy of
`points[0]` when the list is non-empty (`pts.take 1` is `[points[0]]`
then, `[]` otherwise). -/
def applyCmd (s ox oy : ℚ) (st : PState) (g : Char × List Char) : Option PState :=
  if g.1.toUpper = 'M' then doM s ox oy (scanNums g.2) st.2.2
  else if g.1.toUpper = 'L' then doL s ox oy (scanNums g.2) st.1 st.2.1 st.2.2
  else if g.1.toUpper = 'C' then some (doC s ox oy (scanNums g.2) st.1 st.2.1 st.2.2)
  else if g.1.toUpper = 'H' then some (doH s ox oy (scanNums g.2) st.1 st.2.1 st.2.2)
  else if g.1.toUpper = 'V' then some (doV s ox oy (scanNums g.2) st.1 st.2.1 st.2.2)
  else if g.1.toUpper = 'Z' then some (st.1, st.2.1, st.2.2 ++ st.2.2.take 1)
  else some st

/-- The command loop, threading the state through the tokenized groups;
an exception in any iteration aborts the whole call. -/
def runCmds (s ox oy : ℚ) : List (Char × List Char) → PState → Option PState
  | [], st => some st
  | g :: gs, st => (applyCmd s ox oy st g).bind (runCmds s ox oy gs)

/-- Model of `parse_path_to_points(path_data, scale, offset_x, offset_y)`
(lines 34-90): tokenize, run the command loop from cursor `(0,0)` and an
empty points list, return the points. -/
def parse_path_to_points (path : List Char) (s ox oy : ℚ) : Option (List (ℚ × ℚ)) :=
  (runCmds s ox oy (tokenize path) (0, 0, [])).map (fun st => st.2.2)

/-- Split a character list at its first `"`: `some (before, after)` when a
`"` occurs, `none` otherwise. This is how the regex `d="([^"]+)"` resolves
the capture at a candidate position: the greedy `[^"]+` runs to the first
following `"`, which must exist and enclose at least one character. -/
def takeContent : List Char → Option (List Char × List Char)
  | [] => none
  | c :: rest =>
    if c = '"' then some ([], rest)
    else (takeContent rest).map (fun p => (c :: p.1, p.2))

/-- One attempted match of the regex `d="([^"]+)"` at the position whose
first character is `a` and following text is `rest`: the position must
read `d="`, a closing `"` must follow, and the captured run up to it must
be non-empty. -/
def dCandidate (a : Char) (rest : List Char) : Option (List Char) :=
  if a = 'd' ∧ rest.take 2 = ['=', '"'] then
    match takeContent (rest.drop 2) with
    | some (content, _) => if content = [] then none else some content
    | none => none
  else none

/-- Model of `re.search(r'd="([^"]+)"', svg_content)` followed by
`.group(1)` (lines 27-32, `parse_svg_path`): scan left to right; at the
first position where a match attempt succeeds, return the captured
characters; a failed attempt advances one character; no match anywhere
gives `none` (Python `None`). -/
def parse_svg_path : List Char → Option (List Char)
  | [] => none
  | a :: rest =>
    match dCandidate a rest with
    | some content => some content
    | none => parse_svg_path rest

/-- A successful match of the regex `d="([^"]+)"` at position `i` of `s`
capturing `content`: the text at `i` is `d="`, then `content` (non-empty
and quote-free), then a closing `"`. This is the declarative counterpart
the scanner is proved against. -/
def dMatchAt (s : List Char) (i : ℕ) (content : List Char) : Prop :=
  content ≠ [] ∧ '"' ∉ content ∧
    ∃ post, s.drop i = 'd' :: '=' :: '"' :: (content ++ '"' :: post)

/-- Model of `int(size * 0.15)` (line 108). `0.15` is the double nearest `3/20`;
for every canvas size the script can meet, truncating `size * float(0.15)`
and `⌊size * 3/20⌋` agree (the float excess of about `8.3e-18` relative
cannot carry the product across an integer), so the padding is embedded
exactly. -/
def paddingOf (size : ℕ) : ℕ :=
  size * 3 / 20

/-- Model of `scale = icon_area / original_size` with
`icon_area = size - 2 * padding` and `original_size = 1220`
(lines 104-110). `2 * paddingOf size ≤ size`, so natural subtraction is
exact subtraction here. -/
def scaleOf (size : ℕ) : ℚ :=
  ((size - 2 * paddingOf size : ℕ) : ℚ) / 1220

/-- An RGBA color, each channel `0..255`. -/
abbrev RGBA := ℕ × ℕ × ℕ × ℕ

/-- The draw operations a rendering pass performs on its canvas: the
`Image.new` background fill, and the `draw.polygon` call with its point
list and fill color when it happens. -/
structure IconImage where
  size : ℕ
  background : RGBA
  polygonFill : Option (List (ℚ × ℚ) × RGBA)
deriving DecidableEq

/-- Model of `create_kuil_icon_image(size, bg_color, icon_color)` (lines 92-123),
with the SVG file's contents passed in place of the file read: extract
the path data (`None` propagates as the `TypeError` that
`re.findall(None)` raises, embedded as `none`), parse it with the
computed scale and padding offsets (operand `IndexError`s also propagate
as `none`), paint the `bg_color + (255,)` background, and fill the
polygon with `icon_color + (255,)` only when it has at least 3 points. -/
def create_kuil_icon_image (svg_content : List Char) (size : ℕ)
    (bg_color icon_color : ℕ × ℕ × ℕ) : Option IconImage :=
  (parse_svg_path svg_content).bind fun path_data =>
    (parse_path_to_points path_data (scaleOf size) (paddingOf size) (paddingOf size)).map
      fun points =>
        { size := size
          background := (bg_color.1, bg_color.2.1, bg_color.2.2, 255)
          polygonFill :=
            if 3 ≤ points.length then
              some (points, (icon_color.1, icon_color.2.1, icon_color.2.2, 255))
            else none }

/-- Model of `create_tinted_icon(size)` (lines 125-147): same pipeline with a
fully transparent `(0, 0, 0, 0)` background and a white
`(255, 255, 255, 255)` fill. -/
def create_tinted_icon (svg_content : List Char) (size : ℕ) : Option IconImage :=
  (parse_svg_path svg_content).bind fun path_data =>
    (parse_path_to_points path_data (scaleOf size) (paddingOf size) (paddingOf size)).map
      fun points =>
        { size := size
          background := (0, 0, 0, 0)
          polygonFill :=
            if 3 ≤ points.length then some (points, (255, 255, 255, 255))
            else none }

/-- The `Contents.json` text written by `main` (lines 183-224): a string
literal in the source, written verbatim regardless of any input. -/
def contents_json : String :=
  "\x7b
  \"images\" : [
    \x7b
      \"filename\" : \"AppIcon.png\",
      \"idiom\" : \"universal\",
      \"platform\" : \"ios\",
      \"size\" : \"1024x1024\"
    \x7d,
    \x7b
      \"appearances\" : [
        \x7b
          \"appearance\" : \"luminosity\",
          \"value\" : \"dark\"
        \x7d
      ],
      \"filename\" : \"AppIcon-Dark.png\",
      \"idiom\" : \"universal\",
      \"platform\" : \"ios\",
      \"size\" : \"1024x1024\"
    \x7d,
    \x7b
      \"appearances\" : [
        \x7b
          \"appearance\" : \"luminosity\",
          \"value\" : \"tinted\"
        \x7d
      ],
      \"filename\" : \"AppIcon-Tinted.png\",
      \"idiom\" : \"universal\",
      \"platform\" : \"ios\",
      \"size\" : \"1024x1024\"
    \x7d
  ],
  \"info\" : \x7b
    \"author\" : \"xcode\",
    \"version\" : 1
  \x7d
\x7d"

/-- The manifest `main` writes for a given SVG input: the constant above,
whatever the input was (the write at lines 222-224 uses only the
literal). -/
def manifestFor (_svg_content : String) : String :=
  contents_json

/-- Number of (possibly overlapping) occurrences of `pat` in a character
list, counting the positions where `pat` is a prefix of the remaining
text. -/
def countSub (pat : List Char) : List Char → ℕ
  | [] => 0
  | c :: rest =>
    (if pat.isPrefixOf (c :: rest) then 1 else 0) + countSub pat rest

/-! ## Helper lemmas -/

theorem tokenizeAux_cmd :
    ∀ (l : List Char) (acc : Option (Char × List Char)),
      (∀ c args, acc = some (c, args) → isCmd c = true) →
      ∀ g ∈ tokenizeAux l acc, isCmd g.1 = true := by
  intro l
  induction l with
  | nil =>
    intro acc hacc g hg
    cases acc with
    | none => simp [tokenizeAux] at hg
    | some p =>
      obtain ⟨c, args⟩ := p
      simp [tokenizeAux] at hg
      subst hg
      exact hacc c args rfl
  | cons d rest ih =>
    intro acc hacc g hg
    cases acc with
    | none =>
      simp only [tokenizeAux] at hg
      by_cases hd : isCmd d
      · rw [if_pos hd] at hg
        refine ih (some (d, [])) ?_ g hg
        intro c args h
        injection h with h
        cases h
        exact hd
      · rw [if_neg hd] at hg
        refine ih none ?_ g hg
        intro c args h
        exact absurd h (by simp)
    | some p =>
      obtain ⟨c, args⟩ := p
      simp only [tokenizeAux] at hg
      by_cases hd : isCmd d
      · rw [if_pos hd] at hg
        rcases List.mem_cons.mp hg with h | h
        · subst h
          exact hacc c args rfl
        · refine ih (some (d, [])) ?_ g h
          intro c' args' h'
          injection h' with h'
          cases h'
          exact hd
      · rw [if_neg hd] at hg
        refine ih (some (c, args ++ [d])) ?_ g hg
        intro c' args' h'
        injection h' with h'
        cases h'
        exact hacc c args rfl

theorem isCmd_toUpper_mem (c : Char) (h : isCmd c = true) :
    c.toUpper ∈ (['M', 'L', 'C', 'Z'] : List Char) := by
  simp only [isCmd, Bool.or_eq_true, decide_eq_true_eq] at h
  rcases h with ((((((h | h) | h) | h) | h) | h) | h) | h <;> subst h <;> decide

/-! ## Claim theorems -/

/-- C4: `parse_path_to_points` applied to `"M0,0 L10,0 L10,10 Z"` with
scale 1 and zero offsets returns exactly `[(0,0), (10,0), (10,10), (0,0)]`
in that order. -/
theorem c4_triangle_path :
    parse_path_to_points "M0,0 L10,0 L10,10 Z".data 1 0 0 =
      some [(0, 0), (10, 0), (10, 10), (0, 0)] := by
  with_unfolding_all decide

/-- C1 (counterexample): on the cubic segment from `(0,0)` with controls
`(0,10)`, `(10,10)` and endpoint `(10,0)` (scale 1, zero offsets), the
`t = 0.5` sample — index 2 of the result, after the `M` point and the
`t = 0.25` sample — equals `(5, 7.5)`, not `(7.5, 7.5)` as the claim
states. -/
theorem c1_counterexample :
    (parse_path_to_points "M0,0 C0,10 10,10 10,0".data 1 0 0).bind
        (fun l => l[2]?) = some ((5 : ℚ), (15 : ℚ)/2) ∧
      ¬ (parse_path_to_points "M0,0 C0,10 10,10 10,0".data 1 0 0).bind
          (fun l => l[2]?) = some (((15 : ℚ)/2, (15 : ℚ)/2)) := by
  constructor
  · with_unfolding_all decide
  · with_unfolding_all decide

/-- C1 (amended): a `C` command consumes operand sextets; each complete
sextet appends, in order, the samples of the standard cubic blending
formula at `t ∈ {0.25, 0.5, 0.75, 1}` with `P0` the current point, then
moves the current point to the endpoint; on the example segment the four
samples are `(1.5625, 5.625)`, `(5, 7.5)`, `(8.4375, 5.625)`, `(10, 0)` —
the `t = 0.5` sample is `(5, 7.5)` (the claimed `(7.5, 7.5)` contradicts
the blending formula the claim itself gives). -/
theorem c1_cubic_sextet_samples :
    (∀ (s ox oy x1 y1 x2 y2 x3 y3 cx cy : ℚ) (pts : List (ℚ × ℚ)),
      doC s ox oy [x1, y1, x2, y2, x3, y3] cx cy pts =
        (x3, y3, pts ++
          [(bez ((1:ℚ)/4) cx x1 x2 x3 * s + ox, bez ((1:ℚ)/4) cy y1 y2 y3 * s + oy),
           (bez ((1:ℚ)/2) cx x1 x2 x3 * s + ox, bez ((1:ℚ)/2) cy y1 y2 y3 * s + oy),
           (bez ((3:ℚ)/4) cx x1 x2 x3 * s + ox, bez ((3:ℚ)/4) cy y1 y2 y3 * s + oy),
           (bez 1 cx x1 x2 x3 * s + ox, bez 1 cy y1 y2 y3 * s + oy)])) ∧
    parse_path_to_points "M0,0 C0,10 10,10 10,0".data 1 0 0 =
      some [(0, 0), (25/16, 45/8), (5, 15/2), (135/16, 45/8), (10, 0)] := by
  constructor
  · intro s ox oy x1 y1 x2 y2 x3 y3 cx cy pts
    simp [doC, bezSamples]
  · with_unfolding_all decide

/-- C2 (counterexample): `"M0,0 H10"` parses to `[(0, 0)]` — the `H`
operand does not produce the claimed point `(10, 0)`. -/
theorem c2_counterexample :
    parse_path_to_points "M0,0 H10".data 1 0 0 = some [((0 : ℚ), (0 : ℚ))] ∧
      ¬ parse_path_to_points "M0,0 H10".data 1 0 0 =
          some [(0, 0), ((10 : ℚ), (0 : ℚ))] := by
  constructor
  · with_unfolding_all decide
  · with_unfolding_all decide

/-- C2 (amended): the `H` and `V` branches are dead code — the tokenizer
regex captures only `M`, `L`, `C`, `Z` (case-insensitively), so every
tokenized command letter uppercases into that set and the `H`/`V`
branches never run; an `H` or `V` letter is absorbed into the preceding
group's argument text, so `"M0,0 H10"` and `"M0,0 V10"` each parse to
just `[(0, 0)]` (the `M` branch ignores the extra operand). -/
theorem c2_hv_unreachable :
    (∀ (path : List Char), ∀ g ∈ tokenize path,
        g.1.toUpper ∈ (['M', 'L', 'C', 'Z'] : List Char)) ∧
      parse_path_to_points "M0,0 H10".data 1 0 0 = some [(0, 0)] ∧
      parse_path_to_points "M0,0 V10".data 1 0 0 = some [(0, 0)] := by
  refine ⟨?_, ?_, ?_⟩
  · intro path g hg
    exact isCmd_toUpper_mem g.1
      (tokenizeAux_cmd path none (by simp) g hg)
  · with_unfolding_all decide
  · with_unfolding_all decide

/-- C2 (witness for the amended theorem): the single group of path
`"M1"` has a command letter whose uppercase form lies in
`{M, L, C, Z}`. -/
theorem c2_witness : ('M' : Char).toUpper ∈ (['M', 'L', 'C', 'Z'] : List Char) :=
  c2_hv_unreachable.1 "M1".data ('M', "1".data) (by decide)

/-- C3 (counterexample): inserting the unsupported command `A3,4` after
`"M0,0 L10,0"` changes the parse — the `A` group's numbers are absorbed
into the preceding `L` group's operand list, appending the extra point
`(3, 4)` — refuting the claim that an unsupported-command insertion
leaves the parse unchanged. -/
theorem c3_counterexample :
    parse_path_to_points "M0,0 L10,0 A3,4".data 1 0 0 =
        some [(0, 0), (10, 0), (3, 4)] ∧
      parse_path_to_points "M0,0 L10,0".data 1 0 0 = some [(0, 0), (10, 0)] ∧
      parse_path_to_points "M0,0 L10,0 A3,4".data 1 0 0 ≠
        parse_path_to_points "M0,0 L10,0".data 1 0 0 := by
  refine ⟨?_, ?_, ?_⟩
  · with_unfolding_all decide
  · with_unfolding_all decide
  · with_unfolding_all decide

/-- C3 (amended): tokenization splits the path into groups of one command
letter from `{M, L, C, Z}` (case-insensitive) plus following argument
text, extracting all signed decimal numbers of each group as operands;
a command letter outside this set is not tokenized as a command, but its
argument text is absorbed into the preceding supported group's operand
list and can alter the produced points: `"M0,0 L10,0 A3,4"` tokenizes
into an `M` group and an `L` group whose argument text is
`"10,0 A3,4"`, whose operands are `[10, 0, 3, 4]`, so the parse gains
the point `(3, 4)`. -/
theorem c3_unsupported_absorbed :
    tokenize "M0,0 L10,0 A3,4".data =
        [('M', "0,0 ".data), ('L', "10,0 A3,4".data)] ∧
      scanNums "10,0 A3,4".data = [10, 0, 3, 4] ∧
      parse_path_to_points "M0,0 L10,0 A3,4".data 1 0 0 =
        some [(0, 0), (10, 0), (3, 4)] := by
  refine ⟨by decide, ?_, ?_⟩
  · with_unfolding_all decide
  · with_unfolding_all decide

set_option maxRecDepth 8000 in
/-- C9: the `Contents.json` manifest text is a fixed constant — identical
across any two inputs — and contains exactly three image descriptor
entries (three `"filename"` keys inside the single `"images"` list) and
one `"info"` block. -/
theorem c9_manifest_constant :
    (∀ s1 s2 : String, manifestFor s1 = manifestFor s2) ∧
      countSub ("\"filename\"".data) contents_json.data = 3 ∧
      countSub ("\"images\"".data) contents_json.data = 1 ∧
      countSub ("\"info\"".data) contents_json.data = 1 := by
  exact ⟨fun _ _ => rfl, by decide, by decide, by decide⟩

theorem runCmds_append (s ox oy : ℚ) (gs1 gs2 : List (Char × List Char)) :
    ∀ st : PState,
      runCmds s ox oy (gs1 ++ gs2) st =
        (runCmds s ox oy gs1 st).bind (runCmds s ox oy gs2) := by
  induction gs1 with
  | nil => intro st; simp [runCmds]
  | cons g gs ih =>
    intro st
    simp only [List.cons_append, runCmds]
    cases applyCmd s ox oy st g with
    | none => simp
    | some st' => simp [ih st']

theorem applyCmd_Z (s ox oy : ℚ) (st : PState) (g : Char × List Char)
    (h : g.1.toUpper = 'Z') :
    applyCmd s ox oy st g = some (st.1, st.2.1, st.2.2 ++ st.2.2.take 1) := by
  simp [applyCmd, h]

/-- C5: each `Z` command appends a copy of the first recorded point when
the points sequence is non-empty and is a no-op when it is empty (the
single equation `pts ++ pts.take 1` covers both cases); consequently,
when the last tokenized command of a path is a `Z` and the parse result
is non-empty, its first and last points are identical. -/
theorem c5_closepath :
    (∀ (s ox oy : ℚ) (st : PState) (g : Char × List Char),
        g.1.toUpper = 'Z' →
        applyCmd s ox oy st g = some (st.1, st.2.1, st.2.2 ++ st.2.2.take 1)) ∧
      (∀ (path : List Char) (s ox oy : ℚ) (gs : List (Char × List Char))
          (g : Char × List Char) (res : List (ℚ × ℚ)),
        tokenize path = gs ++ [g] → g.1.toUpper = 'Z' →
        parse_path_to_points path s ox oy = some res → res ≠ [] →
        res.head? = res.getLast?) := by
  constructor
  · exact applyCmd_Z
  · intro path s ox oy gs g res htok hz hparse hne
    unfold parse_path_to_points at hparse
    rw [htok, runCmds_append] at hparse
    cases hrun : runCmds s ox oy gs (0, 0, []) with
    | none => rw [hrun] at hparse; simp at hparse
    | some st1 =>
      rw [hrun] at hparse
      simp only [Option.some_bind, runCmds, Option.bind_some] at hparse
      rw [applyCmd_Z s ox oy st1 g hz] at hparse
      simp only [Option.map_some', Option.some.injEq] at hparse
      cases hpts : st1.2.2 with
      | nil => rw [hpts] at hparse; simp at hparse; exact absurd hparse hne
      | cons p t =>
        rw [hpts] at hparse
        subst hparse
        rw [show List.take 1 (p :: t) = [p] by simp]
        rw [List.getLast?_concat]
        simp

/-- C5 (witness): on `"M0,0 L10,0 L10,10 Z"` the last tokenized command
is a `Z`, the parse is non-empty, and its first and last points agree. -/
theorem c5_witness :
    ([((0:ℚ), (0:ℚ)), (10, 0), (10, 10), (0, 0)] : List (ℚ × ℚ)).head? =
      ([((0:ℚ), (0:ℚ)), (10, 0), (10, 10), (0, 0)] : List (ℚ × ℚ)).getLast? :=
  c5_closepath.2 "M0,0 L10,0 L10,10 Z".data 1 0 0
    [('M', "0,0 ".data), ('L', "10,0 ".data), ('L', "10,10 ".data)] ('Z', [])
    [(0, 0), (10, 0), (10, 10), (0, 0)]
    (by decide) (by decide) (by with_unfolding_all decide) (by with_unfolding_all decide)

theorem doM_isSome (s ox oy : ℚ) :
    ∀ (nums : List ℚ) (pts : List (ℚ × ℚ)),
      (doM s ox oy nums pts).isSome ↔ 2 ≤ nums.length
  | [], _ => by simp [doM]
  | [x], _ => by simp [doM]
  | x :: y :: rest, _ => by simp [doM]

theorem doL_isSome (s ox oy : ℚ) :
    ∀ (nums : List ℚ) (cx cy : ℚ) (pts : List (ℚ × ℚ)),
      (doL s ox oy nums cx cy pts).isSome ↔ nums.length % 2 = 0
  | [], _, _, _ => by simp [doL]
  | [x], _, _, _ => by simp [doL]
  | x :: y :: rest, cx, cy, pts => by
    simp only [doL]
    rw [doL_isSome s ox oy rest x y (pts ++ [(x * s + ox, y * s + oy)])]
    simp only [List.length_cons]
    omega

/-- The claim C10 precondition on one tokenized group: an `M` group
carries at least two extracted numbers and an `L` group an even number
of them. -/
def goodGroup (g : Char × List Char) : Prop :=
  (g.1.toUpper = 'M' → 2 ≤ (scanNums g.2).length) ∧
    (g.1.toUpper = 'L' → (scanNums g.2).length % 2 = 0)

instance (g : Char × List Char) : Decidable (goodGroup g) := by
  unfold goodGroup
  infer_instance

theorem applyCmd_isSome (s ox oy : ℚ) (st : PState) (g : Char × List Char) :
    (applyCmd s ox oy st g).isSome ↔ goodGroup g := by
  unfold applyCmd goodGroup
  split_ifs with h1 h2 h3 h4 h5 h6
  · simp [h1, doM_isSome]
  · simp [h1, h2, doL_isSome]
  · simp [h1, h2]
  · simp [h1, h2]
  · simp [h1, h2]
  · simp [h1, h2]
  · simp [h1, h2]

theorem runCmds_isSome (s ox oy : ℚ) :
    ∀ (gs : List (Char × List Char)) (st : PState),
      (runCmds s ox oy gs st).isSome ↔ ∀ g ∈ gs, goodGroup g
  | [], st => by simp [runCmds]
  | g :: gs, st => by
    simp only [runCmds]
    cases h : applyCmd s ox oy st g with
    | none =>
      have hg : ¬ goodGroup g := by
        rw [← applyCmd_isSome s ox oy st g, h]
        simp
      simp [hg]
    | some st' =>
      have hg : goodGroup g := by
        rw [← applyCmd_isSome s ox oy st g, h]
        simp
      simp [runCmds_isSome s ox oy gs st', hg]

/-- C10: `parse_path_to_points` succeeds exactly when every `M` group has
at least two extracted numbers and every `L` group an even number of
them (so under that precondition no out-of-range operand access occurs);
without it the call raises (`"M5"` and `"M0,0 L1"` both abort with an
`IndexError`, embedded as `none`); a `C` group never raises — its branch
always returns, and trailing operands short of a complete sextet are
dropped with the current point and points list unchanged. -/
theorem c10_operand_safety :
    (∀ (path : List Char) (s ox oy : ℚ),
        (parse_path_to_points path s ox oy).isSome ↔
          ∀ g ∈ tokenize path, goodGroup g) ∧
      parse_path_to_points "M5".data 1 0 0 = none ∧
      parse_path_to_points "M0,0 L1".data 1 0 0 = none ∧
      (∀ (s ox oy : ℚ) (st : PState) (args : List Char),
        (applyCmd s ox oy st ('C', args)).isSome) ∧
      (∀ (s ox oy : ℚ) (nums : List ℚ) (cx cy : ℚ) (pts : List (ℚ × ℚ)),
        nums.length < 6 → doC s ox oy nums cx cy pts = (cx, cy, pts)) := by
  refine ⟨?_, ?_, ?_, ?_, ?_⟩
  · intro path s ox oy
    unfold parse_path_to_points
    rw [Option.isSome_map']
    exact runCmds_isSome s ox oy (tokenize path) (0, 0, [])
  · with_unfolding_all decide
  · with_unfolding_all decide
  · intro s ox oy st args
    simp [applyCmd]
  · intro s ox oy nums cx cy pts h
    rcases nums with _ | ⟨a, _ | ⟨b, _ | ⟨c, _ | ⟨d, _ | ⟨e, _ | ⟨f, rest⟩⟩⟩⟩⟩⟩
    all_goals first
      | rfl
      | (simp only [List.length_cons] at h; omega)

/-- C10 (witness): the path `"M1,2"` satisfies the precondition — its one
`M` group extracts the two numbers `[1, 2]` — and the parse succeeds. -/
theorem c10_witness : (parse_path_to_points "M1,2".data 1 0 0).isSome :=
  (c10_operand_safety.1 "M1,2".data 1 0 0).mpr (by with_unfolding_all decide)

/-- Spec-side pointwise affine map `(x, y) ↦ (x*s + ox, y*s + oy)` of the
claim C6, to be compared with the per-point transform the code applies
during parsing. -/
def affinePoint (s ox oy : ℚ) (p : ℚ × ℚ) : ℚ × ℚ :=
  (p.1 * s + ox, p.2 * s + oy)

/-- Spec-side pointwise affine image of a whole polygon (claim C6). -/
def affineImage (s ox oy : ℚ) (l : List (ℚ × ℚ)) : List (ℚ × ℚ) :=
  l.map (affinePoint s ox oy)

/-- Relating a transformed parser state to an untransformed one: same
cursor, affinely mapped points. -/
def stMap (s ox oy : ℚ) (st : PState) : PState :=
  (st.1, st.2.1, affineImage s ox oy st.2.2)

theorem affineImage_snoc (s ox oy : ℚ) (pts : List (ℚ × ℚ)) (x y : ℚ) :
    affineImage s ox oy (pts ++ [(x * 1 + 0, y * 1 + 0)]) =
      affineImage s ox oy pts ++ [(x * s + ox, y * s + oy)] := by
  simp [affineImage, affinePoint]

theorem doM_affine (s ox oy : ℚ) :
    ∀ (nums : List ℚ) (pts : List (ℚ × ℚ)),
      doM s ox oy nums (affineImage s ox oy pts) =
        (doM 1 0 0 nums pts).map (stMap s ox oy)
  | [], _ => by simp [doM]
  | [x], _ => by simp [doM]
  | x :: y :: rest, pts => by
    simp [doM, stMap, affineImage, affinePoint]

theorem doL_affine (s ox oy : ℚ) :
    ∀ (nums : List ℚ) (cx cy : ℚ) (pts : List (ℚ × ℚ)),
      doL s ox oy nums cx cy (affineImage s ox oy pts) =
        (doL 1 0 0 nums cx cy pts).map (stMap s ox oy)
  | [], _, _, _ => by simp [doL, stMap]
  | [x], _, _, _ => by simp [doL]
  | x :: y :: rest, cx, cy, pts => by
    simp only [doL]
    rw [← affineImage_snoc]
    exact doL_affine s ox oy rest x y (pts ++ [(x * 1 + 0, y * 1 + 0)])

theorem bezSamples_affine (s ox oy cx cy x1 y1 x2 y2 x3 y3 : ℚ) :
    affineImage s ox oy (bezSamples 1 0 0 cx cy x1 y1 x2 y2 x3 y3) =
      bezSamples s ox oy cx cy x1 y1 x2 y2 x3 y3 := by
  simp [bezSamples, affineImage, affinePoint]

theorem doC_affine (s ox oy : ℚ) :
    ∀ (nums : List ℚ) (cx cy : ℚ) (pts : List (ℚ × ℚ)),
      doC s ox oy nums cx cy (affineImage s ox oy pts) =
        stMap s ox oy (doC 1 0 0 nums cx cy pts)
  | [], _, _, _ => by simp [doC, stMap]
  | [a], _, _, _ => by simp [doC, stMap]
  | [a, b], _, _, _ => by simp [doC, stMap]
  | [a, b, c], _, _, _ => by simp [doC, stMap]
  | [a, b, c, d], _, _, _ => by simp [doC, stMap]
  | [a, b, c, d, e], _, _, _ => by simp [doC, stMap]
  | x1 :: y1 :: x2 :: y2 :: x3 :: y3 :: rest, cx, cy, pts => by
    simp only [doC]
    rw [show affineImage s ox oy pts ++ bezSamples s ox oy cx cy x1 y1 x2 y2 x3 y3 =
        affineImage s ox oy (pts ++ bezSamples 1 0 0 cx cy x1 y1 x2 y2 x3 y3) by
      rw [← bezSamples_affine s ox oy cx cy x1 y1 x2 y2 x3 y3]
      simp [affineImage]]
    exact doC_affine s ox oy rest x3 y3 (pts ++ bezSamples 1 0 0 cx cy x1 y1 x2 y2 x3 y3)

theorem doH_affine (s ox oy : ℚ) :
    ∀ (nums : List ℚ) (cx cy : ℚ) (pts : List (ℚ × ℚ)),
      doH s ox oy nums cx cy (affineImage s ox oy pts) =
        stMap s ox oy (doH 1 0 0 nums cx cy pts)
  | [], _, _, _ => by simp [doH, stMap]
  | x :: rest, cx, cy, pts => by
    simp only [doH]
    rw [show affineImage s ox oy pts ++ [(x * s + ox, cy * s + oy)] =
        affineImage s ox oy (pts ++ [(x * 1 + 0, cy * 1 + 0)]) from
      (affineImage_snoc s ox oy pts x cy).symm]
    exact doH_affine s ox oy rest x cy (pts ++ [(x * 1 + 0, cy * 1 + 0)])

theorem doV_affine (s ox oy : ℚ) :
    ∀ (nums : List ℚ) (cx cy : ℚ) (pts : List (ℚ × ℚ)),
      doV s ox oy nums cx cy (affineImage s ox oy pts) =
        stMap s ox oy (doV 1 0 0 nums cx cy pts)
  | [], _, _, _ => by simp [doV, stMap]
  | y :: rest, cx, cy, pts => by
    simp only [doV]
    rw [show affineImage s ox oy pts ++ [(cx * s + ox, y * s + oy)] =
        affineImage s ox oy (pts ++ [(cx * 1 + 0, y * 1 + 0)]) from
      (affineImage_snoc s ox oy pts cx y).symm]
    exact doV_affine s ox oy rest cx y (pts ++ [(cx * 1 + 0, y * 1 + 0)])

theorem applyCmd_affine (s ox oy : ℚ) (st : PState) (g : Char × List Char) :
    applyCmd s ox oy (stMap s ox oy st) g =
      (applyCmd 1 0 0 st g).map (stMap s ox oy) := by
  obtain ⟨cx, cy, pts⟩ := st
  unfold applyCmd
  simp only [stMap]
  split_ifs with h1 h2 h3 h4 h5 h6
  · exact doM_affine s ox oy (scanNums g.2) pts
  · exact doL_affine s ox oy (scanNums g.2) cx cy pts
  · simp [doC_affine s ox oy (scanNums g.2) cx cy pts]
  · simp [doH_affine s ox oy (scanNums g.2) cx cy pts]
  · simp [doV_affine s ox oy (scanNums g.2) cx cy pts]
  · simp [stMap, affineImage, List.map_take]
  · simp [stMap]

theorem runCmds_affine (s ox oy : ℚ) :
    ∀ (gs : List (Char × List Char)) (st : PState),
      runCmds s ox oy gs (stMap s ox oy st) =
        (runCmds 1 0 0 gs st).map (stMap s ox oy)
  | [], st => by simp [runCmds]
  | g :: gs, st => by
    simp only [runCmds]
    rw [applyCmd_affine s ox oy st g]
    cases applyCmd 1 0 0 st g with
    | none => simp
    | some st' =>
      simp only [Option.map_some', Option.some_bind]
      exact runCmds_affine s ox oy gs st'

/-- C6: for every path, scale and offsets, parsing with the transform
applied per appended point (as the code does) equals parsing
untransformed and taking the pointwise affine image
`(x, y) ↦ (x*s + ox, y*s + oy)` of the whole polygon afterwards; in
particular scale 2 with offset `(5, 5)` maps `(0,0)` to `(5,5)` and
`(10,10)` to `(25,25)`. -/
theorem c6_affine_equivalence :
    (∀ (path : List Char) (s ox oy : ℚ),
        parse_path_to_points path s ox oy =
          (parse_path_to_points path 1 0 0).map (affineImage s ox oy)) ∧
      affineImage 2 5 5 [(0, 0), (10, 10)] = [(5, 5), (25, 25)] := by
  constructor
  · intro path s ox oy
    unfold parse_path_to_points
    have hra := runCmds_affine s ox oy (tokenize path) (0, 0, [])
    rw [show stMap s ox oy (0, 0, []) = ((0 : ℚ), (0 : ℚ), ([] : List (ℚ × ℚ))) by
        simp [stMap, affineImage]] at hra
    rw [hra]
    cases runCmds 1 0 0 (tokenize path) (0, 0, []) with
    | none => simp
    | some st => simp [stMap]
  · with_unfolding_all decide

/-- C7: in both `create_kuil_icon_image` and `create_tinted_icon` the
polygon fill is performed iff the parsed points list has at least 3
elements; with fewer than 3 points no fill occurs and the image is
exactly the background-only canvas (solid `bg_color` with alpha 255, or
the fully transparent canvas for the tinted variant). -/
theorem c7_fill_guard :
    ∀ (svg : List Char) (size : ℕ) (bg ic : ℕ × ℕ × ℕ) (d : List Char)
      (pts : List (ℚ × ℚ)),
      parse_svg_path svg = some d →
      parse_path_to_points d (scaleOf size) (paddingOf size) (paddingOf size) =
        some pts →
      ((∃ img, create_kuil_icon_image svg size bg ic = some img ∧
          (img.polygonFill ≠ none ↔ 3 ≤ pts.length) ∧
          (pts.length < 3 →
            img = { size := size, background := (bg.1, bg.2.1, bg.2.2, 255),
                    polygonFill := none })) ∧
        (∃ img, create_tinted_icon svg size = some img ∧
          (img.polygonFill ≠ none ↔ 3 ≤ pts.length) ∧
          (pts.length < 3 →
            img = { size := size, background := (0, 0, 0, 0),
                    polygonFill := none }))) := by
  intro svg size bg ic d pts hd hpts
  constructor
  · have hcr : create_kuil_icon_image svg size bg ic =
        some { size := size, background := (bg.1, bg.2.1, bg.2.2, 255),
               polygonFill := if 3 ≤ pts.length then
                 some (pts, (ic.1, ic.2.1, ic.2.2, 255)) else none } := by
      simp [create_kuil_icon_image, hd, hpts]
    refine ⟨_, hcr, ?_, ?_⟩
    · split_ifs with h3 <;> simp [h3]
    · intro hlt
      rw [if_neg (by omega)]
  · have hcr : create_tinted_icon svg size =
        some { size := size, background := (0, 0, 0, 0),
               polygonFill := if 3 ≤ pts.length then
                 some (pts, (255, 255, 255, 255)) else none } := by
      simp [create_tinted_icon, hd, hpts]
    refine ⟨_, hcr, ?_, ?_⟩
    · split_ifs with h3 <;> simp [h3]
    · intro hlt
      rw [if_neg (by omega)]

/-- C7 (witness): with SVG text `d="M0,0 L1,1"` and canvas size 0 the
parsed polygon has 2 points, so both passes return the background-only
canvas. -/
theorem c7_witness :
    (∃ img, create_kuil_icon_image "d=\"M0,0 L1,1\"".data 0 (1, 2, 3) (4, 5, 6) =
        some img ∧
      (img.polygonFill ≠ none ↔
        3 ≤ ([((0 : ℚ), (0 : ℚ)), (0, 0)] : List (ℚ × ℚ)).length) ∧
      (([((0 : ℚ), (0 : ℚ)), (0, 0)] : List (ℚ × ℚ)).length < 3 →
        img = { size := 0, background := (1, 2, 3, 255), polygonFill := none })) :=
  ((c7_fill_guard "d=\"M0,0 L1,1\"".data 0 (1, 2, 3) (4, 5, 6)
    "M0,0 L1,1".data [(0, 0), (0, 0)]
    (by decide) (by with_unfolding_all decide)).1)

theorem takeContent_append (content post : List Char) (h : '"' ∉ content) :
    takeContent (content ++ '"' :: post) = some (content, post) := by
  induction content with
  | nil => simp [takeContent]
  | cons c cs ih =>
    have hc : ¬ c = '"' := by
      intro hq
      subst hq
      exact h (List.mem_cons_self _ _)
    have hcs : '"' ∉ cs := fun hm => h (List.mem_cons_of_mem _ hm)
    simp [takeContent, hc, ih hcs]

theorem takeContent_spec (l : List Char) :
    (takeContent l = none → '"' ∉ l) ∧
      (∀ content post, takeContent l = some (content, post) →
        l = content ++ '"' :: post ∧ '"' ∉ content) := by
  induction l with
  | nil =>
    exact ⟨fun _ => by simp, fun c p h => by simp [takeContent] at h⟩
  | cons a rest ih =>
    by_cases ha : a = '"'
    · subst ha
      refine ⟨fun h => by simp [takeContent] at h, fun c p h => ?_⟩
      have heq : takeContent ('"' :: rest) = some ([], rest) := rfl
      rw [heq] at h
      injection h with h
      injection h with h1 h2
      subst h1
      subst h2
      simp
    · refine ⟨fun h hm => ?_, fun c p h => ?_⟩
      · simp only [takeContent, if_neg ha] at h
        rcases List.mem_cons.mp hm with h' | h'
        · exact ha h'.symm
        · cases htc : takeContent rest with
          | some pr => rw [htc] at h; simp at h
          | none => exact ih.1 htc h'
      · simp only [takeContent, if_neg ha] at h
        cases htc : takeContent rest with
        | none => rw [htc] at h; simp at h
        | some pr =>
          obtain ⟨c1, p1⟩ := pr
          rw [htc] at h
          simp only [Option.map_some', Option.some.injEq, Prod.mk.injEq] at h
          obtain ⟨hcc, hpp⟩ := h
          obtain ⟨hl, hq⟩ := ih.2 c1 p1 htc
          subst hcc
          subst hpp
          constructor
          · rw [hl]
            simp
          · intro hm
            rcases List.mem_cons.mp hm with h' | h'
            · exact ha h'.symm
            · exact hq h'

theorem dMatchAt_succ (a : Char) (s : List Char) (j : ℕ) (c : List Char) :
    dMatchAt (a :: s) (j + 1) c ↔ dMatchAt s j c := by
  unfold dMatchAt
  rw [List.drop_succ_cons]

theorem dCandidate_some (a : Char) (rest : List Char) (c : List Char)
    (h : dCandidate a rest = some c) : dMatchAt (a :: rest) 0 c := by
  unfold dCandidate at h
  split at h
  case isFalse => exact Option.noConfusion h
  case isTrue hc =>
  obtain ⟨ha, htake⟩ := hc
  subst ha
  have hrest : rest = '=' :: '"' :: rest.drop 2 := by
    conv_lhs => rw [← List.take_append_drop 2 rest]
    rw [htake]
    rfl
  split at h
  case h_2 => exact Option.noConfusion h
  case h_1 content snd heq =>
  split at h
  case isTrue => exact Option.noConfusion h
  case isFalse hc0 =>
  injection h with h
  subst h
  obtain ⟨hl, hqn⟩ := (takeContent_spec (rest.drop 2)).2 content snd heq
  exact ⟨hc0, hqn, snd, by rw [List.drop_zero, hrest, hl]⟩

theorem dCandidate_none (a : Char) (rest : List Char)
    (h : dCandidate a rest = none) : ∀ c, ¬ dMatchAt (a :: rest) 0 c := by
  intro c hm
  obtain ⟨hne, hq, post, hdrop⟩ := hm
  rw [List.drop_zero] at hdrop
  obtain ⟨ha, hrest⟩ : a = 'd' ∧ rest = '=' :: '"' :: (c ++ '"' :: post) := by
    injection hdrop with h1 h2
    exact ⟨h1, h2⟩
  subst ha
  subst hrest
  unfold dCandidate at h
  rw [if_pos ⟨rfl, rfl⟩] at h
  have hd2 : List.drop 2 ('=' :: '"' :: (c ++ '"' :: post)) = c ++ '"' :: post := rfl
  rw [hd2, takeContent_append c post hq] at h
  simp [hne] at h

theorem parse_svg_path_spec (s : List Char) :
    (∀ c, parse_svg_path s = some c →
        ∃ i, dMatchAt s i c ∧ ∀ j c', dMatchAt s j c' → i ≤ j) ∧
      (parse_svg_path s = none → ∀ i c, ¬ dMatchAt s i c) := by
  induction s with
  | nil =>
    constructor
    · intro c h
      simp [parse_svg_path] at h
    · intro _ i c hm
      obtain ⟨hne, hq, post, hdrop⟩ := hm
      simp at hdrop
  | cons a rest ih =>
    cases hdc : dCandidate a rest with
    | some content =>
      have hp : parse_svg_path (a :: rest) = some content := by
        simp [parse_svg_path, hdc]
      constructor
      · intro c h
        rw [hp] at h
        injection h with h
        subst h
        exact ⟨0, dCandidate_some a rest content hdc, fun j c' _ => Nat.zero_le j⟩
      · intro h
        rw [hp] at h
        exact Option.noConfusion h
    | none =>
      have hp : parse_svg_path (a :: rest) = parse_svg_path rest := by
        simp [parse_svg_path, hdc]
      have h0 := dCandidate_none a rest hdc
      constructor
      · intro c h
        rw [hp] at h
        obtain ⟨i, hm, hmin⟩ := ih.1 c h
        refine ⟨i + 1, (dMatchAt_succ a rest i c).mpr hm, ?_⟩
        intro j c' hj
        cases j with
        | zero => exact absurd hj (h0 c')
        | succ j' =>
          exact Nat.succ_le_succ (hmin j' c' ((dMatchAt_succ a rest j' c').mp hj))
      · intro h i c hm
        rw [hp] at h
        cases i with
        | zero => exact h0 c hm
        | succ i' =>
          exact ih.2 h i' c ((dMatchAt_succ a rest i' c).mp hm)

/-- C8: `parse_svg_path` returns the contents of the first `d="..."`
attribute occurrence when one exists — the captured characters match at
the least position admitting a match — and `none` when no position
admits a match; and whenever it returns `none`, both rendering passes
propagate the failure (the `TypeError` of feeding `None` to
`re.findall`, embedded as `none`) instead of producing an icon image. -/
theorem c8_svg_path_extraction :
    (∀ (svg c : List Char),
        parse_svg_path svg = some c →
          ∃ i, dMatchAt svg i c ∧ ∀ j c', dMatchAt svg j c' → i ≤ j) ∧
      (∀ svg : List Char,
        parse_svg_path svg = none → ∀ i c, ¬ dMatchAt svg i c) ∧
      (∀ (svg : List Char) (size : ℕ) (bg ic : ℕ × ℕ × ℕ),
        parse_svg_path svg = none →
          create_kuil_icon_image svg size bg ic = none ∧
            create_tinted_icon svg size = none) := by
  refine ⟨fun svg => (parse_svg_path_spec svg).1,
    fun svg => (parse_svg_path_spec svg).2, ?_⟩
  intro svg size bg ic h
  constructor <;> simp [create_kuil_icon_image, create_tinted_icon, h]

/-- C8 (witness): the SVG text `"x"` has no `d` attribute, so both
rendering passes abort with `none` instead of producing an image. -/
theorem c8_witness :
    create_kuil_icon_image "x".data 4 (1, 2, 3) (4, 5, 6) = none ∧
      create_tinted_icon "x".data 4 = none :=
  c8_svg_path_extraction.2.2 "x".data 4 (1, 2, 3) (4, 5, 6) (by decide)

end Kuil

